import Mathlib

/-!
Verification of the schedule-computation core of `pandas_market_calendars`
against its specification.  Instants are modelled as integer minutes since
the epoch 1970-01-01 00:00 UTC; calendar days as integer day numbers since
1970-01-01 (proleptic Gregorian).  The schedule-building core module is not
part of the sources at hand (only its tests and the CFE exchange data file
are), so the core operations are modelled from the specification, as marked
on each definition.
-/

namespace MarketCal

/-- A wall-clock time of day (hour and minute). -/
structure Time where
  hour : Nat
  minute : Nat
deriving DecidableEq, Repr

/-- Minutes after midnight of a wall-clock time. -/
def Time.toMinutes (t : Time) : Int := (t.hour : Int) * 60 + (t.minute : Int)

theorem Time.toMinutes_nonneg (t : Time) : 0 ≤ t.toMinutes := by
  unfold Time.toMinutes; positivity

/-- Modelled from the spec: an IANA time zone, reduced to what the core
consumes (§4.2): the UTC offset (in minutes east of UTC) in effect at a given
local wall-clock reading, given as day number and minute of day.  The zone
database itself is external to the core. -/
structure Zone where
  offsetAt : Int → Int → Int

/-- The UTC zone: offset 0 everywhere. -/
def utcZone : Zone := ⟨fun _ _ => 0⟩

/-- Day number (days since 1970-01-01) of a proleptic-Gregorian civil date,
via the standard era/year-of-era decomposition. -/
def daysFromCivil (y m d : Int) : Int :=
  let yy := if m ≤ 2 then y - 1 else y
  let era := yy / 400
  let yoe := yy - era * 400
  let mp := (m + 9) % 12
  let doy := (153 * mp + 2) / 5 + d - 1
  let doe := yoe * 365 + yoe / 4 - yoe / 100 + doy
  era * 146097 + doe - 719468

/-- Modelled from the spec: the America/Chicago zone over the dates the
claims exercise, under the 1987–2006 US DST rule instance for 2004: CDT
(offset -300) from 2004-04-04 02:00 wall clock to 2004-10-31 02:00 wall
clock, CST (offset -360) otherwise.  The zone database is external to the
core. -/
def americaChicago : Zone where
  offsetAt d m :=
    if (daysFromCivil 2004 4 4 < d ∨ (d = daysFromCivil 2004 4 4 ∧ 120 ≤ m)) ∧
       (d < daysFromCivil 2004 10 31 ∨ (d = daysFromCivil 2004 10 31 ∧ m < 120))
    then -300 else -360

/-- Modelled from the spec (§4.2): converts a naive wall-clock reading (in
minutes) to the absolute UTC instant, resolving the zone offset at that
wall-clock reading — this is the localize-then-convert step of
`days_at_time`, whose implementation module is not among the sources. -/
def wallToUTC (z : Zone) (w : Int) : Int :=
  w - z.offsetAt (w / 1440) (w % 1440)

theorem wallToUTC_utcZone (w : Int) : wallToUTC utcZone w = w := by
  simp [wallToUTC, utcZone]

/-- Modelled from the spec (§4.2): `days_at_time(days, t, tz, day_offset)` —
for each date, the absolute UTC instant of wall-clock time `t` on
`date + day_offset`, localized to `tz`.  The implementing module
`market_calendar.py` is not among the sources; modelled from the description in the spec
 (naive wall-clock datetime built first, then localized, then
converted to UTC). -/
def days_at_time (days : List Int) (t : Time) (z : Zone) (day_offset : Int) :
    List Int :=
  days.map fun d => wallToUTC z ((d + day_offset) * 1440 + t.toMinutes)

/-- Claim C1: for every date `d` and zone `z`, `days_at_time [d] t z k` is the
absolute UTC instant of wall-clock time `t` on day `d + k`, computed with the
UTC offset in effect in `z` on day `d + k` (not the offset of `d`); in
particular `days_at_time` of 2004-04-05 with day offset -1 and time 17:01 in
America/Chicago is the instant of 2004-04-04 17:01 local Chicago time (CDT,
offset -300). -/
theorem days_at_time_target_day_offset (d k : Int) (t : Time) (z : Zone)
    (ht : t.toMinutes < 1440) :
    days_at_time [d] t z k =
      [(d + k) * 1440 + t.toMinutes - z.offsetAt (d + k) t.toMinutes] ∧
    days_at_time [daysFromCivil 2004 4 5] ⟨17, 1⟩ americaChicago (-1) =
      [daysFromCivil 2004 4 4 * 1440 + (17 * 60 + 1) + 300] := by
  constructor
  · have h0 : 0 ≤ t.toMinutes := t.toMinutes_nonneg
    have e1 : ((d + k) * 1440 + t.toMinutes) / 1440 = d + k := by omega
    have e2 : ((d + k) * 1440 + t.toMinutes) % 1440 = t.toMinutes := by omega
    simp only [days_at_time, List.map, wallToUTC, e1, e2]
  · decide

/-- Witness for C1: the DST instance from the spec, evaluated concretely. -/
theorem days_at_time_target_day_offset_witness :
    days_at_time [daysFromCivil 2004 4 5] ⟨17, 1⟩ americaChicago (-1) =
      [daysFromCivil 2004 4 4 * 1440 + (17 * 60 + 1) + 300] :=
  (days_at_time_target_day_offset (daysFromCivil 2004 4 5) (-1) ⟨17, 1⟩
    americaChicago (by decide)).2

/-- Modelled from the spec (§3, §4.1): the immutable calendar definition the
market-calendar contract exposes.  Rule sets (`regular_holidays`, the rule
parts of special overrides) are the output of the external holiday-rule source,
modelled as decidable date predicates; ad-hoc entries are explicit date
lists.  `open_time` / `close_time` are the per-instance effective defaults
(construction-time overrides already applied).  The implementing module is
not among the sources. -/
structure Calendar where
  tz : Zone
  open_time : Time
  close_time : Time
  break_start : Option Time := none
  break_end : Option Time := none
  regular_holidays : Int → Bool := fun _ => false
  adhoc_holidays : List Int := []
  special_opens : List (Time × (Int → Bool)) := []
  special_opens_adhoc : List (Time × List Int) := []
  special_closes : List (Time × (Int → Bool)) := []
  special_closes_adhoc : List (Time × List Int) := []

/-- The ascending list of day numbers in `[s, e]`. -/
def rangeDays (s e : Int) : List Int :=
  (List.range (e + 1 - s).toNat).map fun (i : Nat) => s + (i : Int)

/-- Monday–Friday test: day 0 (1970-01-01) was a Thursday. -/
def isBusinessDay (d : Int) : Bool :=
  let w := (d + 4) % 7
  decide (1 ≤ w ∧ w ≤ 5)

/-- A date closed by the regular rule set or listed ad hoc. -/
def Calendar.isHoliday (cal : Calendar) (d : Int) : Bool :=
  cal.regular_holidays d || decide (d ∈ cal.adhoc_holidays)

/-- Modelled from the spec (§4.1): `holidays(range)` — union of the regular
matches of the rule set over the range and the ad-hoc holiday dates, intersected
with the range. -/
def holidays (cal : Calendar) (s e : Int) : List Int :=
  (rangeDays s e).filter fun d => cal.isHoliday d

/-- Modelled from the spec (§4.1): `valid_days(start, end)` — business
weekdays in `[start, end]` minus holidays. -/
def valid_days (cal : Calendar) (s e : Int) : List Int :=
  (rangeDays s e).filter fun d => isBusinessDay d && !cal.isHoliday d

/-- Modelled from the spec (§4.3 steps 4–5): resolve the special-session
override for one day — rule-based entries applied in list order
(last-match-wins), then ad-hoc entries the same way, so ad-hoc entries take
precedence. -/
def resolveSpecial (ruleEntries : List (Time × (Int → Bool)))
    (adhocEntries : List (Time × List Int)) (d : Int) : Option Time :=
  adhocEntries.foldl (fun acc en => if d ∈ en.2 then some en.1 else acc)
    (ruleEntries.foldl (fun acc en => if en.2 d then some en.1 else acc) none)

/-- The effective open time for a day: the resolved special-open override,
or the default open time of the calendar. -/
def openTimeFor (cal : Calendar) (d : Int) : Time :=
  (resolveSpecial cal.special_opens cal.special_opens_adhoc d).getD cal.open_time

/-- The effective close time for a day: the resolved special-close override,
or the default close time of the calendar. -/
def closeTimeFor (cal : Calendar) (d : Int) : Time :=
  (resolveSpecial cal.special_closes cal.special_closes_adhoc d).getD cal.close_time

/-- One row of the schedule table; instants are absolute UTC minutes. -/
structure Row where
  date : Int
  market_open : Int
  market_close : Int
  break_start : Option Int
  break_end : Option Int
deriving DecidableEq, Repr

/-- Modelled from the spec (§4.3 steps 3–6): the schedule row for one valid
day — effective open/close instants via the zone of the calendar, and, when the
calendar defines a break, the default break instants clamped independently so
that the break start is never before the effective open and the break end
never after the effective close. -/
def buildRow (cal : Calendar) (d : Int) : Row :=
  let o := wallToUTC cal.tz (d * 1440 + (openTimeFor cal d).toMinutes)
  let c := wallToUTC cal.tz (d * 1440 + (closeTimeFor cal d).toMinutes)
  { date := d
    market_open := o
    market_close := c
    break_start := cal.break_start.map fun bt =>
      max (wallToUTC cal.tz (d * 1440 + bt.toMinutes)) o
    break_end := cal.break_end.map fun bt =>
      min (wallToUTC cal.tz (d * 1440 + bt.toMinutes)) c }

/-- The error conditions of the public surface (§7). -/
inductive CalError where
  | InvalidRange
deriving DecidableEq, Repr

/-- A user-supplied date/timestamp: a calendar day, possibly carrying a
time of day and a zone, both stripped by normalization. -/
structure Stamp where
  day : Int
  minute : Nat := 0
  zone : Option Zone := none

/-- Modelled from the spec (§4.2): `clean_dates(start, end)` — strips time
of day and zone from either endpoint, failing with `InvalidRange` when the
normalized start date is strictly after the normalized end date. -/
def clean_dates (s e : Stamp) : Except CalError (Int × Int) :=
  if e.day < s.day then .error .InvalidRange else .ok (s.day, e.day)

/-- The columns of the schedule table: break columns only when the calendar
defines a break. -/
def scheduleColumns (cal : Calendar) : List String :=
  match cal.break_start, cal.break_end with
  | some _, some _ => ["market_open", "market_close", "break_start", "break_end"]
  | _, _ => ["market_open", "market_close"]

/-- The schedule table: its columns and its date-ordered rows. -/
structure Schedule where
  columns : List String
  rows : List Row
deriving DecidableEq, Repr

/-- Modelled from the spec (§4.3): `schedule(start, end)` — normalize the
range (failing with `InvalidRange` when reversed), compute the valid days,
and build one row per valid day.  Instants are absolute, so the display-zone
conversion of step 7 is representational and does not change them. -/
def schedule (cal : Calendar) (s e : Stamp) : Except CalError Schedule :=
  match clean_dates s e with
  | .error err => .error err
  | .ok (a, b) => .ok ⟨scheduleColumns cal, (valid_days cal a b).map (buildRow cal)⟩

/-- A zone-aware timestamp as supplied to the query engine: a wall-clock
reading together with its zone. -/
structure ZonedStamp where
  wall : Int
  zone : Zone

/-- The absolute UTC instant a zone-aware timestamp denotes. -/
def ZonedStamp.toUTC (ts : ZonedStamp) : Int := wallToUTC ts.zone ts.wall

/-- Modelled from the spec (§4.4): whether one schedule row counts the
instant `t` as open — inside `[market_open, market_close)` (closed at the
close itself unless `include_close`), and, when the row has a break, outside
the break: the session is the union of `[market_open, break_start)` and
`[break_end, market_close)` (right-closed instead when `include_close`). -/
def rowOpenAt (r : Row) (t : Int) (include_close : Bool) : Bool :=
  match r.break_start, r.break_end with
  | some bs, some be =>
      if include_close then
        decide ((r.market_open ≤ t ∧ t ≤ bs) ∨ (be ≤ t ∧ t ≤ r.market_close))
      else
        decide ((r.market_open ≤ t ∧ t < bs) ∨ (be ≤ t ∧ t < r.market_close))
  | _, _ =>
      if include_close then decide (r.market_open ≤ t ∧ t ≤ r.market_close)
      else decide (r.market_open ≤ t ∧ t < r.market_close)

/-- Modelled from the spec (§4.4): `open_at_time(schedule, instant,
include_close)` — true when some row counts the instant as open; an instant
outside every row is closed, not an error. -/
def open_at_time (sched : Schedule) (ts : ZonedStamp) (include_close : Bool) :
    Bool :=
  sched.rows.any fun r => rowOpenAt r ts.toUTC include_close

theorem mem_rangeDays {s e d : Int} : d ∈ rangeDays s e ↔ s ≤ d ∧ d ≤ e := by
  unfold rangeDays
  constructor
  · intro h
    obtain ⟨i, hi, hd⟩ := List.mem_map.mp h
    have := List.mem_range.mp hi
    omega
  · intro h
    exact List.mem_map.mpr
      ⟨(d - s).toNat, List.mem_range.mpr (by omega), by omega⟩

theorem pairwise_rangeDays (s e : Int) :
    List.Pairwise (· < ·) (rangeDays s e) := by
  exact (List.pairwise_lt_range _).map _ (fun a b h => by omega)

theorem mem_valid_days {cal : Calendar} {s e d : Int} :
    d ∈ valid_days cal s e ↔
      s ≤ d ∧ d ≤ e ∧ isBusinessDay d = true ∧ cal.isHoliday d = false := by
  simp only [valid_days, List.mem_filter, mem_rangeDays, Bool.and_eq_true,
    Bool.not_eq_true']
  tauto

theorem buildRow_date (cal : Calendar) (d : Int) : (buildRow cal d).date = d := rfl

/-- The last entry of `l` satisfying `p`, mapped through `f`, with fallback
`i` — the precedence order the override fold realizes. -/
def lastWins {α β : Type} (p : α → Bool) (f : α → β) (l : List α)
    (i : Option β) : Option β :=
  match l.reverse.find? p with
  | some x => some (f x)
  | none => i

theorem foldl_override_eq {α β : Type} (p : α → Bool) (f : α → β) :
    ∀ (l : List α) (i : Option β),
      l.foldl (fun acc x => if p x then some (f x) else acc) i = lastWins p f l i := by
  intro l
  induction l with
  | nil => intro i; rfl
  | cons a tl ih =>
      intro i
      rw [List.foldl_cons, ih]
      unfold lastWins
      rw [List.reverse_cons, List.find?_append]
      cases h : tl.reverse.find? p with
      | some x => rfl
      | none => cases hp : p a <;> simp [List.find?, hp]

theorem resolveSpecial_eq_lastWins (ruleEntries : List (Time × (Int → Bool)))
    (adhocEntries : List (Time × List Int)) (d : Int) :
    resolveSpecial ruleEntries adhocEntries d =
      lastWins (fun en => decide (d ∈ en.2)) Prod.fst adhocEntries
        (lastWins (fun en => en.2 d) Prod.fst ruleEntries none) := by
  unfold resolveSpecial
  rw [show (fun (acc : Option Time) (en : Time × List Int) =>
        if d ∈ en.2 then some en.1 else acc)
      = (fun acc en => if decide (d ∈ en.2) = true then some en.1 else acc) by
    funext acc en
    by_cases h : d ∈ en.2 <;> simp [h]]
  rw [foldl_override_eq, foldl_override_eq]

theorem schedule_ok_elim {cal : Calendar} {s e : Stamp} {sc : Schedule}
    (hs : schedule cal s e = .ok sc) :
    s.day ≤ e.day ∧
      sc = ⟨scheduleColumns cal, (valid_days cal s.day e.day).map (buildRow cal)⟩ := by
  unfold schedule clean_dates at hs
  by_cases h : e.day < s.day
  · rw [if_pos h] at hs
    exact absurd hs (by simp)
  · rw [if_neg h] at hs
    exact ⟨by omega, (Except.ok.injEq _ _ ▸ hs).symm⟩

theorem schedule_rows_dates {cal : Calendar} {s e : Stamp} {sc : Schedule}
    (hs : schedule cal s e = .ok sc) :
    sc.rows.map Row.date = valid_days cal s.day e.day := by
  obtain ⟨-, rfl⟩ := schedule_ok_elim hs
  rw [List.map_map]
  have : Row.date ∘ buildRow cal = id := funext fun d => buildRow_date cal d
  rw [this, List.map_id]

/-- Claim C8: the rows of any successfully computed schedule are exactly the
valid days of the range in ascending order: their dates are pairwise
increasing, lie in the range, fall on business weekdays, and are absent from
the holidays of the range; the row dates coincide with `valid_days`. -/
theorem schedule_rows_are_valid_days (cal : Calendar) (s e : Stamp)
    (sc : Schedule) (hs : schedule cal s e = .ok sc) :
    sc.rows.map Row.date = valid_days cal s.day e.day ∧
    List.Pairwise (· < ·) (sc.rows.map Row.date) ∧
    sc.rows.all (fun r => decide (s.day ≤ r.date ∧ r.date ≤ e.day ∧
      isBusinessDay r.date = true ∧ r.date ∉ holidays cal s.day e.day)) = true := by
  have hdates := schedule_rows_dates hs
  refine ⟨hdates, ?_, ?_⟩
  · rw [hdates]
    exact (pairwise_rangeDays s.day e.day).filter _
  · rw [List.all_eq_true]
    intro r hr
    have hrd : r.date ∈ valid_days cal s.day e.day := by
      rw [← hdates]
      exact List.mem_map_of_mem Row.date hr
    obtain ⟨h1, h2, h3, h4⟩ := mem_valid_days.mp hrd
    rw [decide_eq_true_eq]
    refine ⟨h1, h2, h3, fun hmem => ?_⟩
    have := (List.mem_filter.mp hmem).2
    rw [h4] at this
    exact Bool.false_ne_true this

/-- A small sample calendar used to instantiate the theorems on concrete
inputs: opens 09:00 and closes 17:00 UTC; day 6 (1970-01-07, a Wednesday) is
an ad-hoc holiday that nonetheless carries a special-open entry. -/
def sampleCal : Calendar :=
  { tz := utcZone
    open_time := ⟨9, 0⟩
    close_time := ⟨17, 0⟩
    adhoc_holidays := [6]
    special_opens_adhoc := [(⟨10, 0⟩, [6])] }

/-- Witness for C8: the schedule of the sample calendar over days 4–5. -/
theorem schedule_rows_are_valid_days_witness :
    ([Row.mk 4 6300 6780 none none, Row.mk 5 7740 8220 none none].map Row.date
        = valid_days sampleCal 4 5) ∧
    List.Pairwise (· < ·)
      ([Row.mk 4 6300 6780 none none, Row.mk 5 7740 8220 none none].map Row.date) ∧
    [Row.mk 4 6300 6780 none none, Row.mk 5 7740 8220 none none].all
      (fun r => decide ((4 : Int) ≤ r.date ∧ r.date ≤ 5 ∧
        isBusinessDay r.date = true ∧ r.date ∉ holidays sampleCal 4 5)) = true :=
  schedule_rows_are_valid_days sampleCal ⟨4, 0, none⟩ ⟨5, 0, none⟩
    ⟨["market_open", "market_close"],
     [Row.mk 4 6300 6780 none none, Row.mk 5 7740 8220 none none]⟩ rfl

/-- Claim C4: a date closed by the regular holiday rule set or listed among
the ad-hoc holidays never appears among the valid days or the schedule rows,
regardless of any special-open/close entry for it. -/
theorem holiday_dates_never_scheduled (cal : Calendar) (s e : Stamp) (d : Int)
    (sc : Schedule)
    (hd : cal.regular_holidays d = true ∨ d ∈ cal.adhoc_holidays)
    (hs : schedule cal s e = .ok sc) :
    d ∉ valid_days cal s.day e.day ∧ d ∉ sc.rows.map Row.date := by
  have hhol : cal.isHoliday d = true := by
    unfold Calendar.isHoliday
    rcases hd with h | h
    · simp [h]
    · simp [h]
  have hnv : d ∉ valid_days cal s.day e.day := by
    intro hmem
    have := (mem_valid_days.mp hmem).2.2.2
    rw [hhol] at this
    exact Bool.noConfusion this
  exact ⟨hnv, by rw [schedule_rows_dates hs]; exact hnv⟩

/-- Witness for C4: day 6 is an ad-hoc holiday of the sample calendar (with
a special-open entry for that very date) and the one-day schedule for it is
empty. -/
theorem holiday_dates_never_scheduled_witness :
    (6 : Int) ∉ valid_days sampleCal 6 6 ∧
    (6 : Int) ∉ ([] : List Row).map Row.date :=
  holiday_dates_never_scheduled sampleCal ⟨6, 0, none⟩ ⟨6, 0, none⟩ 6
    ⟨["market_open", "market_close"], []⟩ (Or.inr (by decide)) rfl

/-- Claim C6: a normalized start date strictly after the normalized end date
makes `clean_dates` — and hence `schedule` — fail with `InvalidRange`,
producing no result. -/
theorem clean_dates_invalid_range (cal : Calendar) (s e : Stamp)
    (h : e.day < s.day) :
    clean_dates s e = .error .InvalidRange ∧
    schedule cal s e = .error .InvalidRange := by
  have h1 : clean_dates s e = .error .InvalidRange := by
    unfold clean_dates
    rw [if_pos h]
  refine ⟨h1, ?_⟩
  unfold schedule
  rw [h1]

/-- Witness for C6: the reversed range 2016-02-02 to 2016-01-01 from the spec. -/
theorem clean_dates_invalid_range_witness :
    clean_dates ⟨daysFromCivil 2016 2 2, 0, none⟩ ⟨daysFromCivil 2016 1 1, 0, none⟩
        = .error .InvalidRange ∧
    schedule sampleCal ⟨daysFromCivil 2016 2 2, 0, none⟩
        ⟨daysFromCivil 2016 1 1, 0, none⟩ = .error .InvalidRange :=
  clean_dates_invalid_range sampleCal ⟨daysFromCivil 2016 2 2, 0, none⟩
    ⟨daysFromCivil 2016 1 1, 0, none⟩ (by decide)

/-- Claim C7: a valid range containing no valid trading day yields a
well-formed empty table carrying exactly the schedule columns of the calendar,
and no error. -/
theorem schedule_empty_when_no_valid_days (cal : Calendar) (s e : Stamp)
    (hle : s.day ≤ e.day) (hnone : valid_days cal s.day e.day = []) :
    schedule cal s e = .ok ⟨scheduleColumns cal, []⟩ := by
  unfold schedule clean_dates
  rw [if_neg (by omega)]
  show Except.ok
      (Schedule.mk (scheduleColumns cal) ((valid_days cal s.day e.day).map (buildRow cal)))
      = (Except.ok (Schedule.mk (scheduleColumns cal) []) : Except CalError Schedule)
  rw [hnone]
  rfl

/-- Witness for C7: days 2–3 (1970-01-03/04) are a weekend. -/
theorem schedule_empty_when_no_valid_days_witness :
    schedule sampleCal ⟨2, 0, none⟩ ⟨3, 0, none⟩ = .ok ⟨scheduleColumns sampleCal, []⟩ :=
  schedule_empty_when_no_valid_days sampleCal ⟨2, 0, none⟩ ⟨3, 0, none⟩
    (by decide) (by decide)

theorem buildRow_break_eq (cal : Calendar) (d : Int) (bs be : Time)
    (hbs : cal.break_start = some bs) (hbe : cal.break_end = some be) :
    (buildRow cal d).break_start =
      some (max (wallToUTC cal.tz (d * 1440 + bs.toMinutes))
        (buildRow cal d).market_open) ∧
    (buildRow cal d).break_end =
      some (min (wallToUTC cal.tz (d * 1440 + be.toMinutes))
        (buildRow cal d).market_close) := by
  unfold buildRow
  rw [hbs, hbe]
  exact ⟨rfl, rfl⟩

/-- Claim C2 (amended): in every schedule row of a calendar with a break,
`break_start` is the later of the default break-start instant and the
effective open (so a special open at or past the default break start yields
`break_start` equal to the effective open) and `break_end` is the earlier of
the default break-end instant and the effective close (symmetrically); and
provided the effective open precedes the effective close and the default
break window genuinely overlaps the effective session (open before default
break end, default break start before close and before default break end),
the row satisfies `market_open ≤ break_start < break_end ≤ market_close`. -/
theorem schedule_break_clamping (cal : Calendar) (s e : Stamp) (sc : Schedule)
    (r : Row) (bs be : Time)
    (hbs : cal.break_start = some bs) (hbe : cal.break_end = some be)
    (hs : schedule cal s e = .ok sc) (hr : r ∈ sc.rows)
    (h3 : r.market_open < r.market_close)
    (h1 : r.market_open < wallToUTC cal.tz (r.date * 1440 + be.toMinutes))
    (h2 : wallToUTC cal.tz (r.date * 1440 + bs.toMinutes) < r.market_close)
    (h4 : wallToUTC cal.tz (r.date * 1440 + bs.toMinutes) <
          wallToUTC cal.tz (r.date * 1440 + be.toMinutes)) :
    r.break_start =
      some (max (wallToUTC cal.tz (r.date * 1440 + bs.toMinutes)) r.market_open) ∧
    r.break_end =
      some (min (wallToUTC cal.tz (r.date * 1440 + be.toMinutes)) r.market_close) ∧
    r.market_open ≤
      max (wallToUTC cal.tz (r.date * 1440 + bs.toMinutes)) r.market_open ∧
    max (wallToUTC cal.tz (r.date * 1440 + bs.toMinutes)) r.market_open <
      min (wallToUTC cal.tz (r.date * 1440 + be.toMinutes)) r.market_close ∧
    min (wallToUTC cal.tz (r.date * 1440 + be.toMinutes)) r.market_close ≤
      r.market_close := by
  obtain ⟨-, rfl⟩ := schedule_ok_elim hs
  obtain ⟨d, -, rfl⟩ := List.mem_map.mp hr
  rw [buildRow_date] at h1 h2 h4 ⊢
  obtain ⟨e1, e2⟩ := buildRow_break_eq cal d bs be hbs hbe
  refine ⟨e1, e2, le_max_right _ _, ?_, min_le_right _ _⟩
  omega

/-- A break calendar whose day-4 special open lands after the default break
end and whose special close lands before the default break start: the independent clamping of the spec
 then crosses the session bounds. -/
def crossingBreakCal : Calendar :=
  { tz := utcZone
    open_time := ⟨9, 30⟩
    close_time := ⟨12, 0⟩
    break_start := some ⟨10, 0⟩
    break_end := some ⟨11, 0⟩
    special_opens_adhoc := [(⟨10, 30⟩, [4])]
    special_closes_adhoc := [(⟨9, 45⟩, [4])] }

/-- Counterexample to C2 as stated: on day 4 the row of the crossing calendar has
market_open = break_start = 6390 and market_close = break_end = 6345, so
neither market_open < market_close nor break_start < break_end holds. -/
theorem schedule_break_clamping_counterexample :
    schedule crossingBreakCal ⟨4, 0, none⟩ ⟨4, 0, none⟩ =
      .ok ⟨["market_open", "market_close", "break_start", "break_end"],
           [Row.mk 4 6390 6345 (some 6390) (some 6345)]⟩ ∧
    ¬ ((6390 : Int) < 6345) :=
  ⟨rfl, by decide⟩

/-- A plain break calendar: 09:30–12:00 UTC session with a 10:00–11:00
break and no special sessions. -/
def sampleBreakCal : Calendar :=
  { tz := utcZone
    open_time := ⟨9, 30⟩
    close_time := ⟨12, 0⟩
    break_start := some ⟨10, 0⟩
    break_end := some ⟨11, 0⟩ }

/-- Witness for C2: the day-4 row of the plain break calendar. -/
theorem schedule_break_clamping_witness :
    (Row.mk 4 6330 6480 (some 6360) (some 6420)).break_start =
      some (max (6360 : Int) 6330) ∧
    (Row.mk 4 6330 6480 (some 6360) (some 6420)).break_end =
      some (min (6420 : Int) 6480) ∧
    (6330 : Int) ≤ max (6360 : Int) 6330 ∧
    max (6360 : Int) 6330 < min (6420 : Int) 6480 ∧
    min (6420 : Int) 6480 ≤ (6480 : Int) :=
  schedule_break_clamping sampleBreakCal ⟨4, 0, none⟩ ⟨4, 0, none⟩
    ⟨["market_open", "market_close", "break_start", "break_end"],
     [Row.mk 4 6330 6480 (some 6360) (some 6420)]⟩
    (Row.mk 4 6330 6480 (some 6360) (some 6420)) ⟨10, 0⟩ ⟨11, 0⟩
    rfl rfl rfl (by decide) (by decide) (by decide) (by decide) (by decide)

/-- Claim C3 (amended): on a schedule row with a break whose bounds are
strictly ordered (market_open < break_start < break_end < market_close), an
instant exactly at market_open is open (either mode); exactly at
market_close it is open iff include_close; exactly at break_start it is
closed unless include_close, in which case it is open; exactly at break_end
it is open (either mode); and any instant strictly inside the break is
closed (either mode).  When clamping degenerates the bounds (market_open =
break_start, or break_end = market_close), the break/close rules win and the
corresponding boundary instant is closed in the default mode. -/
theorem open_at_time_boundaries (cols : List String) (r : Row) (bs be t : Int)
    (hbs : r.break_start = some bs) (hbe : r.break_end = some be)
    (h1 : r.market_open < bs) (h2 : bs < be) (h3 : be < r.market_close)
    (ht1 : bs < t) (ht2 : t < be) :
    open_at_time ⟨cols, [r]⟩ ⟨r.market_open, utcZone⟩ false = true ∧
    open_at_time ⟨cols, [r]⟩ ⟨r.market_open, utcZone⟩ true = true ∧
    open_at_time ⟨cols, [r]⟩ ⟨r.market_close, utcZone⟩ false = false ∧
    open_at_time ⟨cols, [r]⟩ ⟨r.market_close, utcZone⟩ true = true ∧
    open_at_time ⟨cols, [r]⟩ ⟨bs, utcZone⟩ false = false ∧
    open_at_time ⟨cols, [r]⟩ ⟨bs, utcZone⟩ true = true ∧
    open_at_time ⟨cols, [r]⟩ ⟨be, utcZone⟩ false = true ∧
    open_at_time ⟨cols, [r]⟩ ⟨be, utcZone⟩ true = true ∧
    open_at_time ⟨cols, [r]⟩ ⟨t, utcZone⟩ false = false ∧
    open_at_time ⟨cols, [r]⟩ ⟨t, utcZone⟩ true = false := by
  have hu : ∀ x : Int, ZonedStamp.toUTC ⟨x, utcZone⟩ = x := fun x =>
    wallToUTC_utcZone x
  refine ⟨?_, ?_, ?_, ?_, ?_, ?_, ?_, ?_, ?_, ?_⟩ <;>
    simp only [open_at_time, List.any_cons, List.any_nil, Bool.or_false, hu,
      rowOpenAt, hbs, hbe, Bool.false_eq_true, if_true, if_false,
      decide_eq_true_eq, decide_eq_false_iff_not] <;>
    omega

/-- A break calendar whose day-4 special open (10:20) lies past the default
break start, so clamping makes market_open of the row equal its break_start. -/
def clampedOpenCal : Calendar :=
  { tz := utcZone
    open_time := ⟨9, 30⟩
    close_time := ⟨12, 0⟩
    break_start := some ⟨10, 0⟩
    break_end := some ⟨11, 0⟩
    special_opens_adhoc := [(⟨10, 20⟩, [4])] }

/-- Counterexample to C3 as stated: on the clamped row (market_open =
break_start = 6380) the instant exactly at market_open is reported closed in
the default mode, against the claim that market_open always counts open. -/
theorem open_at_time_boundaries_counterexample :
    schedule clampedOpenCal ⟨4, 0, none⟩ ⟨4, 0, none⟩ =
      .ok ⟨["market_open", "market_close", "break_start", "break_end"],
           [Row.mk 4 6380 6480 (some 6380) (some 6420)]⟩ ∧
    open_at_time
      ⟨["market_open", "market_close", "break_start", "break_end"],
       [Row.mk 4 6380 6480 (some 6380) (some 6420)]⟩
      ⟨6380, utcZone⟩ false = false :=
  ⟨rfl, rfl⟩

/-- Witness for C3: the plain 09:30/10:00/11:00/12:00 row, with 10:30 as the
strictly-inside-the-break instant. -/
theorem open_at_time_boundaries_witness :
    open_at_time ⟨["market_open", "market_close", "break_start", "break_end"],
      [Row.mk 4 6330 6480 (some 6360) (some 6420)]⟩ ⟨6330, utcZone⟩ false = true ∧
    open_at_time ⟨["market_open", "market_close", "break_start", "break_end"],
      [Row.mk 4 6330 6480 (some 6360) (some 6420)]⟩ ⟨6330, utcZone⟩ true = true ∧
    open_at_time ⟨["market_open", "market_close", "break_start", "break_end"],
      [Row.mk 4 6330 6480 (some 6360) (some 6420)]⟩ ⟨6480, utcZone⟩ false = false ∧
    open_at_time ⟨["market_open", "market_close", "break_start", "break_end"],
      [Row.mk 4 6330 6480 (some 6360) (some 6420)]⟩ ⟨6480, utcZone⟩ true = true ∧
    open_at_time ⟨["market_open", "market_close", "break_start", "break_end"],
      [Row.mk 4 6330 6480 (some 6360) (some 6420)]⟩ ⟨6360, utcZone⟩ false = false ∧
    open_at_time ⟨["market_open", "market_close", "break_start", "break_end"],
      [Row.mk 4 6330 6480 (some 6360) (some 6420)]⟩ ⟨6360, utcZone⟩ true = true ∧
    open_at_time ⟨["market_open", "market_close", "break_start", "break_end"],
      [Row.mk 4 6330 6480 (some 6360) (some 6420)]⟩ ⟨6420, utcZone⟩ false = true ∧
    open_at_time ⟨["market_open", "market_close", "break_start", "break_end"],
      [Row.mk 4 6330 6480 (some 6360) (some 6420)]⟩ ⟨6420, utcZone⟩ true = true ∧
    open_at_time ⟨["market_open", "market_close", "break_start", "break_end"],
      [Row.mk 4 6330 6480 (some 6360) (some 6420)]⟩ ⟨6390, utcZone⟩ false = false ∧
    open_at_time ⟨["market_open", "market_close", "break_start", "break_end"],
      [Row.mk 4 6330 6480 (some 6360) (some 6420)]⟩ ⟨6390, utcZone⟩ true = false :=
  open_at_time_boundaries ["market_open", "market_close", "break_start", "break_end"]
    (Row.mk 4 6330 6480 (some 6360) (some 6420)) 6360 6420 6390
    rfl rfl (by decide) (by decide) (by decide) (by decide) (by decide)

/-- Claim C5: override resolution applies rule-based special entries in
list order with later entries winning, then ad-hoc entries the same way
after all rule-based ones (the `lastWins` characterization below); hence on
a day matched both by a rule-based entry and by an ad-hoc entry, the last
time of the last matching ad-hoc entry is the one in the resulting schedule row, for
the open and symmetrically for the close. -/
theorem special_override_precedence (cal : Calendar) (d : Int)
    (eo : Time × (Int → Bool)) (ao : Time × List Int)
    (ec : Time × (Int → Bool)) (ac : Time × List Int)
    (_heo : eo ∈ cal.special_opens) (_heom : eo.2 d = true)
    (hao : cal.special_opens_adhoc.reverse.find? (fun en => decide (d ∈ en.2))
        = some ao)
    (_hec : ec ∈ cal.special_closes) (_hecm : ec.2 d = true)
    (hac : cal.special_closes_adhoc.reverse.find? (fun en => decide (d ∈ en.2))
        = some ac) :
    resolveSpecial cal.special_opens cal.special_opens_adhoc d =
      lastWins (fun en => decide (d ∈ en.2)) Prod.fst cal.special_opens_adhoc
        (lastWins (fun en => en.2 d) Prod.fst cal.special_opens none) ∧
    openTimeFor cal d = ao.1 ∧
    closeTimeFor cal d = ac.1 ∧
    (buildRow cal d).market_open = wallToUTC cal.tz (d * 1440 + ao.1.toMinutes) ∧
    (buildRow cal d).market_close = wallToUTC cal.tz (d * 1440 + ac.1.toMinutes) := by
  have hopen : openTimeFor cal d = ao.1 := by
    unfold openTimeFor
    rw [resolveSpecial_eq_lastWins]
    unfold lastWins
    rw [hao]
    rfl
  have hclose : closeTimeFor cal d = ac.1 := by
    unfold closeTimeFor
    rw [resolveSpecial_eq_lastWins]
    unfold lastWins
    rw [hac]
    rfl
  refine ⟨resolveSpecial_eq_lastWins _ _ _, hopen, hclose, ?_, ?_⟩
  · show wallToUTC cal.tz (d * 1440 + (openTimeFor cal d).toMinutes) = _
    rw [hopen]
  · show wallToUTC cal.tz (d * 1440 + (closeTimeFor cal d).toMinutes) = _
    rw [hclose]

/-- A calendar with both rule-based and ad-hoc special opens and closes
matching day 4, used to instantiate the precedence theorem. -/
def overrideCal : Calendar :=
  { tz := utcZone
    open_time := ⟨11, 13⟩
    close_time := ⟨11, 49⟩
    special_opens := [(⟨11, 15⟩, fun d => decide (d = 4))]
    special_opens_adhoc := [(⟨11, 20⟩, [4])]
    special_closes := [(⟨11, 30⟩, fun d => decide (d = 4))]
    special_closes_adhoc := [(⟨11, 40⟩, [4])] }

/-- Witness for C5: on day 4 the ad-hoc times 11:20/11:40 win over
the rule-based 11:15/11:30 and the defaults 11:13/11:49. -/
theorem special_override_precedence_witness :
    resolveSpecial overrideCal.special_opens overrideCal.special_opens_adhoc 4 =
      lastWins (fun en => decide ((4 : Int) ∈ en.2)) Prod.fst
        overrideCal.special_opens_adhoc
        (lastWins (fun en => en.2 4) Prod.fst overrideCal.special_opens none) ∧
    openTimeFor overrideCal 4 = ⟨11, 20⟩ ∧
    closeTimeFor overrideCal 4 = ⟨11, 40⟩ ∧
    (buildRow overrideCal 4).market_open =
      wallToUTC overrideCal.tz (4 * 1440 + Time.toMinutes ⟨11, 20⟩) ∧
    (buildRow overrideCal 4).market_close =
      wallToUTC overrideCal.tz (4 * 1440 + Time.toMinutes ⟨11, 40⟩) :=
  special_override_precedence overrideCal 4
    (⟨11, 15⟩, fun d => decide (d = 4)) (⟨11, 20⟩, [4])
    (⟨11, 30⟩, fun d => decide (d = 4)) (⟨11, 40⟩, [4])
    (List.Mem.head _) rfl rfl (List.Mem.head _) rfl rfl

/-- Claim C9: the answer of `open_at_time` depends only on the absolute
instant queried — two zone-aware timestamps denoting the same UTC instant
get the same answer on any schedule and either include_close mode. -/
theorem open_at_time_instant_determined (sc : Schedule) (t1 t2 : ZonedStamp)
    (ic : Bool) (h : t1.toUTC = t2.toUTC) :
    open_at_time sc t1 ic = open_at_time sc t2 ic := by
  unfold open_at_time
  rw [h]

/-- A fixed UTC-240 zone (America/New_York while on daylight time). -/
def fixedEasternDaylight : Zone := ⟨fun _ _ => -240⟩

/-- Witness for C9: wall 6400 UTC and wall 6160 at offset -240 denote the
same instant and get the same answer. -/
theorem open_at_time_instant_determined_witness :
    open_at_time ⟨["market_open", "market_close"], [Row.mk 4 6300 6780 none none]⟩
        ⟨6400, utcZone⟩ false =
    open_at_time ⟨["market_open", "market_close"], [Row.mk 4 6300 6780 none none]⟩
        ⟨6160, fixedEasternDaylight⟩ false :=
  open_at_time_instant_determined
    ⟨["market_open", "market_close"], [Row.mk 4 6300 6780 none none]⟩
    ⟨6400, utcZone⟩ ⟨6160, fixedEasternDaylight⟩ false (by decide)

/-- Embedding of `CFEExchangeCalendar` from
src/pandas_market_calendars/exchange_calendar_cfe.py: zone America/Chicago,
`open_time_default` = time(8, 31), `close_time_default` = time(15, 15), and
a 12:15 special close on the Black-Friday rule set.  The holiday rule sets
(USNewYearsDay, ..., USBlackFridayInOrAfter1993) come from the external
holiday-rule source, out of scope per spec §1, so they are injected as
abstract predicates. -/
def CFEExchangeCalendar (regularRules blackFridayRules : Int → Bool) : Calendar :=
  { tz := americaChicago
    open_time := ⟨8, 31⟩
    close_time := ⟨15, 15⟩
    regular_holidays := regularRules
    special_closes := [(⟨12, 15⟩, blackFridayRules)] }

/-- The open time the CFEExchangeCalendar class docstring states:
"Open Time: 8:30am, America/Chicago". -/
def cfeDocumentedOpenTime : Time := ⟨8, 30⟩

/-- The close time the CFEExchangeCalendar class docstring states:
"Close Time: 3:15pm, America/Chicago". -/
def cfeDocumentedCloseTime : Time := ⟨15, 15⟩

/-- Claim C10: the CFE `open_time_default` is 08:31 America/Chicago, one
minute later than the 8:30am its own docstring states, while its
`close_time_default` is 15:15, matching the documented 3:15pm. -/
theorem cfe_open_time_one_minute_after_docstring
    (regularRules blackFridayRules : Int → Bool) :
    (CFEExchangeCalendar regularRules blackFridayRules).open_time = ⟨8, 31⟩ ∧
    (CFEExchangeCalendar regularRules blackFridayRules).open_time.toMinutes =
      cfeDocumentedOpenTime.toMinutes + 1 ∧
    (CFEExchangeCalendar regularRules blackFridayRules).close_time =
      cfeDocumentedCloseTime := by
  refine ⟨rfl, ?_, rfl⟩
  norm_num [CFEExchangeCalendar, cfeDocumentedOpenTime, Time.toMinutes]

end MarketCal
